import Mathlib

/-!
Verification development for the orbit-camera controller of the `rsodr` demo
(`src/main.rs`).  The floating-point (`f32`) arithmetic of the source is
modelled over the exact reals, as the specification's properties are stated
in exact arithmetic.  Vectors and quaternions follow the semantics of the
`glam` types used by the source (`Vec2`, `Vec3`, `Quat`).
-/

namespace Rsodr

/-- 2D vector (model of `glam::Vec2`). -/
structure Vec2 where
  x : ℝ
  y : ℝ

/-- 3D vector (model of `glam::Vec3`). -/
structure Vec3 where
  x : ℝ
  y : ℝ
  z : ℝ

/-- Quaternion, stored `(x, y, z, w)` as in `glam::Quat`. -/
structure Quat where
  x : ℝ
  y : ℝ
  z : ℝ
  w : ℝ

def Vec2.add (a b : Vec2) : Vec2 := ⟨a.x + b.x, a.y + b.y⟩

def Vec2.sub (a b : Vec2) : Vec2 := ⟨a.x - b.x, a.y - b.y⟩

def Vec2.scale (v : Vec2) (s : ℝ) : Vec2 := ⟨v.x * s, v.y * s⟩

def Vec3.add (a b : Vec3) : Vec3 := ⟨a.x + b.x, a.y + b.y, a.z + b.z⟩

def Vec3.sub (a b : Vec3) : Vec3 := ⟨a.x - b.x, a.y - b.y, a.z - b.z⟩

def Vec3.scale (v : Vec3) (s : ℝ) : Vec3 := ⟨v.x * s, v.y * s, v.z * s⟩

def Vec3.dot (a b : Vec3) : ℝ := a.x * b.x + a.y * b.y + a.z * b.z

def Vec3.cross (a b : Vec3) : Vec3 :=
  ⟨a.y * b.z - a.z * b.y, a.z * b.x - a.x * b.z, a.x * b.y - a.y * b.x⟩

/-- `f32::clamp(lo, hi)` over the reals (requires `lo ≤ hi`, which holds at
every call site of the source: `[5, 500]` and `[-π/2, π/2]`). -/
noncomputable def clamp (x lo hi : ℝ) : ℝ := max lo (min x hi)

/-- `Quat::from_axis_angle` (glam): scalar part `cos (angle/2)`, vector part
`axis * sin (angle/2)`. -/
noncomputable def Quat.fromAxisAngle (axis : Vec3) (angle : ℝ) : Quat :=
  ⟨axis.x * Real.sin (angle / 2), axis.y * Real.sin (angle / 2),
   axis.z * Real.sin (angle / 2), Real.cos (angle / 2)⟩

/-- Hamilton product, as implemented by `glam::Quat::mul`. -/
def Quat.mul (a b : Quat) : Quat :=
  ⟨a.w * b.x + a.x * b.w + a.y * b.z - a.z * b.y,
   a.w * b.y - a.x * b.z + a.y * b.w + a.z * b.x,
   a.w * b.z + a.x * b.y - a.y * b.x + a.z * b.w,
   a.w * b.w - a.x * b.x - a.y * b.y - a.z * b.z⟩

/-- `glam::Quat::mul_vec3`: with `b` the vector part and `w` the scalar part,
`v * (w² - b·b) + b * (2 (v·b)) + (b × v) * (2 w)`. -/
def Quat.mulVec3 (q : Quat) (v : Vec3) : Vec3 :=
  let b : Vec3 := ⟨q.x, q.y, q.z⟩
  ((v.scale (q.w * q.w - b.dot b)).add
    ((b.scale (v.dot b * 2)).add ((b.cross v).scale (q.w * 2))))

/-- The `CameraOrbit` component of `src/main.rs`. -/
structure CameraOrbit where
  center : Vec3
  distance : ℝ
  azimuth : ℝ
  elevation : ℝ
  pan : Vec2

/-- Which of the two mouse buttons used by `camera_input` are held. -/
structure ButtonState where
  primary : Bool
  middle : Bool

/-- The wheel branch of `camera_input` for a single wheel event:
`zoom_factor = 1.0 + y * -0.1; distance = (distance * zoom_factor).clamp(5.0, 500.0)`. -/
noncomputable def apply_zoom (y : ℝ) (dist : ℝ) : ℝ :=
  clamp (dist * (1 + y * (-0.1))) 5 500

/-- The drag branch of `camera_input`, lines 189-198 of `src/main.rs`, acting
on an already-computed cursor delta: middle button pans (`pan += delta * 0.1`),
left button orbits (`azimuth -= delta.x * 0.005`,
`elevation = (elevation + delta.y * 0.005).clamp(-π/2, π/2)`). -/
noncomputable def drag_update (delta : Vec2) (buttons : ButtonState)
    (o : CameraOrbit) : CameraOrbit :=
  let o1 := if buttons.middle then { o with pan := o.pan.add (delta.scale 0.1) } else o
  if buttons.primary then
    { o1 with
      azimuth := o1.azimuth - delta.x * 0.005,
      elevation := clamp (o1.elevation + delta.y * 0.005) (-(Real.pi / 2)) (Real.pi / 2) }
  else o1

/-- The fold of `camera_input` over the tick's `CursorMoved` events: each event
overwrites `current_cursor_position`, so the last event (if any) wins. -/
def lastMove (moves : List Vec2) : Option Vec2 :=
  moves.foldl (fun _ p => some p) none

/-- The `camera_input` system for one tick.  Inputs: the tick's wheel-event
`y` deltas in arrival order, the tick's `CursorMoved` positions in arrival
order, the button state, the `Local<Option<Vec2>>` stored last cursor
position, and the orbit state.  Returns the updated orbit state and the new
stored last cursor position.  Note the source binds the pair
`(*last_cursor_position, current_cursor_position)` to the pattern
`(Some(current_pos), Some(last_pos))` and takes `delta = current_pos - last_pos`,
i.e. the stored position minus this tick's position. -/
noncomputable def camera_input (wheel : List ℝ) (moves : List Vec2)
    (buttons : ButtonState) (lastCursor : Option Vec2) (o : CameraOrbit) :
    CameraOrbit × Option Vec2 :=
  let o1 := { o with
    distance := wheel.foldl (fun dist y => clamp (dist * (1 + y * (-0.1))) 5 500) o.distance }
  let current := lastMove moves
  let o2 :=
    match lastCursor, current with
    | some p, some q => drag_update (p.sub q) buttons o1
    | _, _ => o1
  (o2, current)

/-- The output of the `camera_orbit` system; the source writes
`Transform::from_translation(final_pos).looking_at(orbit.center, Vec3::Y)`,
recorded here as the translation, the look-at target, and the up vector. -/
structure LookAtTransform where
  translation : Vec3
  target : Vec3
  up : Vec3

/-- The `camera_orbit` system of `src/main.rs` (the spec's `derive_transform`):
`rotation = Quat::from_axis_angle(Y, azimuth) * Quat::from_axis_angle(X, elevation)`;
`new_pos = rotation * (0,0,distance) + center`; `final_pos = new_pos + (pan.x, pan.y, 0)`;
transform positioned at `final_pos` looking at `center` with up `Y`. -/
noncomputable def camera_orbit (orbit : CameraOrbit) : LookAtTransform :=
  let rotation := (Quat.fromAxisAngle ⟨0, 1, 0⟩ orbit.azimuth).mul
    (Quat.fromAxisAngle ⟨1, 0, 0⟩ orbit.elevation)
  let new_pos := (rotation.mulVec3 ⟨0, 0, orbit.distance⟩).add orbit.center
  let final_pos := new_pos.add ⟨orbit.pan.x, orbit.pan.y, 0⟩
  ⟨final_pos, orbit.center, ⟨0, 1, 0⟩⟩

/-- Rotation about the world Y axis by `a` (the spec's `rotation_about_Y`),
as the standard right-handed rotation matrix applied to a vector. -/
noncomputable def rotationAboutY (a : ℝ) (v : Vec3) : Vec3 :=
  ⟨v.x * Real.cos a + v.z * Real.sin a, v.y, -v.x * Real.sin a + v.z * Real.cos a⟩

/-- Rotation about the world X axis by `e` (the spec's `rotation_about_X`),
as the standard right-handed rotation matrix applied to a vector. -/
noncomputable def rotationAboutX (e : ℝ) (v : Vec3) : Vec3 :=
  ⟨v.x, v.y * Real.cos e - v.z * Real.sin e, v.y * Real.sin e + v.z * Real.cos e⟩

/-- Spec-modelled tick zoom for comparison in claim C7: the spec's words
"folds wheel events by summation" applied once through the zoom update. -/
noncomputable def sumZoomTick (wheel : List ℝ) (dist : ℝ) : ℝ :=
  clamp (dist * (1 + wheel.sum * (-0.1))) 5 500

/-- The composed quaternion `from_axis_angle(Y, a) * from_axis_angle(X, e)`
rotates any vector exactly as the Y rotation matrix applied after the X
rotation matrix. -/
lemma quat_yx_mulVec3 (a e : ℝ) (v : Vec3) :
    ((Quat.fromAxisAngle ⟨0, 1, 0⟩ a).mul (Quat.fromAxisAngle ⟨1, 0, 0⟩ e)).mulVec3 v =
      rotationAboutY a (rotationAboutX e v) := by
  have hpa : Real.sin (a / 2) ^ 2 + Real.cos (a / 2) ^ 2 = 1 := Real.sin_sq_add_cos_sq _
  have hpe : Real.sin (e / 2) ^ 2 + Real.cos (e / 2) ^ 2 = 1 := Real.sin_sq_add_cos_sq _
  have hca : Real.cos a = 2 * Real.cos (a / 2) ^ 2 - 1 := by
    have h := Real.cos_two_mul (a / 2)
    rw [show 2 * (a / 2) = a by ring] at h
    exact h
  have hsa : Real.sin a = 2 * Real.sin (a / 2) * Real.cos (a / 2) := by
    have h := Real.sin_two_mul (a / 2)
    rw [show 2 * (a / 2) = a by ring] at h
    exact h
  have hce : Real.cos e = 2 * Real.cos (e / 2) ^ 2 - 1 := by
    have h := Real.cos_two_mul (e / 2)
    rw [show 2 * (e / 2) = e by ring] at h
    exact h
  have hse : Real.sin e = 2 * Real.sin (e / 2) * Real.cos (e / 2) := by
    have h := Real.sin_two_mul (e / 2)
    rw [show 2 * (e / 2) = e by ring] at h
    exact h
  obtain ⟨vx, vy, vz⟩ := v
  simp only [Quat.fromAxisAngle, Quat.mul, Quat.mulVec3, Vec3.dot, Vec3.cross,
    Vec3.scale, Vec3.add, rotationAboutY, rotationAboutX, Vec3.mk.injEq]
  rw [hca, hsa, hce, hse]
  refine ⟨?_, ?_, ?_⟩
  · linear_combination
      (-(vx * (Real.sin (e / 2) ^ 2 + Real.cos (e / 2) ^ 2))) * hpa +
      (vx * (2 * Real.cos (a / 2) ^ 2 - 1) -
        2 * Real.sin (a / 2) * Real.cos (a / 2) * vz) * hpe
  · linear_combination
      (vy * (2 * Real.cos (e / 2) ^ 2 - 1) -
        2 * Real.sin (e / 2) * Real.cos (e / 2) * vz) * hpa +
      (-(vy * (Real.sin (a / 2) ^ 2 + Real.cos (a / 2) ^ 2))) * hpe
  · linear_combination
      (-(2 * Real.sin (e / 2) * Real.cos (e / 2) * vy) +
        (Real.sin (e / 2) ^ 2 - Real.cos (e / 2) ^ 2) * vz) * hpa +
      (-(2 * Real.sin (a / 2) * Real.cos (a / 2) * vx) -
        (2 * Real.cos (a / 2) ^ 2 - 1) * vz) * hpe

/-- Closed form of `camera_orbit`: translation is the rotated radial vector
plus center plus the raw pan offset; target is the center; up is world Y. -/
lemma camera_orbit_eq (o : CameraOrbit) :
    camera_orbit o =
      ⟨((rotationAboutY o.azimuth (rotationAboutX o.elevation ⟨0, 0, o.distance⟩)).add
          o.center).add ⟨o.pan.x, o.pan.y, 0⟩,
        o.center, ⟨0, 1, 0⟩⟩ := by
  simp only [camera_orbit]
  rw [quat_yx_mulVec3]

/-- Claim C1: `camera_orbit` (the spec's `derive_transform`) computes, for
every state, the rotation `rotation_about_Y(azimuth) ∘ rotation_about_X(elevation)`
in that order, position `rotation * (0,0,distance) + center + (pan.x, pan.y, 0)`
with the pan added unrotated in world space, and an orientation looking at
`center` with world-up `(0,1,0)`; in particular the state
`{center=(0,0,0), distance=200, azimuth=0, elevation=0, pan=(0,0)}` yields
position `(0,0,200)` looking at the origin. -/
theorem c1_derive_transform :
    (∀ o : CameraOrbit,
      camera_orbit o =
        ⟨((rotationAboutY o.azimuth (rotationAboutX o.elevation ⟨0, 0, o.distance⟩)).add
            o.center).add ⟨o.pan.x, o.pan.y, 0⟩,
          o.center, ⟨0, 1, 0⟩⟩) ∧
    camera_orbit ⟨⟨0, 0, 0⟩, 200, 0, 0, ⟨0, 0⟩⟩ = ⟨⟨0, 0, 200⟩, ⟨0, 0, 0⟩, ⟨0, 1, 0⟩⟩ := by
  refine ⟨camera_orbit_eq, ?_⟩
  rw [camera_orbit_eq]
  simp [rotationAboutY, rotationAboutX, Vec3.add]

/-- Claim C2: the wheel branch of `camera_input` sets distance to
`clamp(distance * (1 - 0.1 * wheel_delta_y), 5, 500)`; for every delta and
every starting distance the result lies in `[5, 500]`; and delta `1.0` applied
to distance `200` yields exactly `180`. -/
theorem c2_apply_zoom :
    (∀ y dist : ℝ,
      apply_zoom y dist = clamp (dist * (1 - 0.1 * y)) 5 500 ∧
      5 ≤ apply_zoom y dist ∧ apply_zoom y dist ≤ 500) ∧
    apply_zoom 1 200 = 180 := by
  constructor
  · intro y dist
    refine ⟨by rw [apply_zoom, show dist * (1 + y * (-0.1)) = dist * (1 - 0.1 * y) by ring],
      le_max_left _ _, max_le (by norm_num) (min_le_right _ _)⟩
  · rw [apply_zoom, clamp, show (200 : ℝ) * (1 + 1 * (-0.1)) = 180 by norm_num,
      min_eq_left (by norm_num), max_eq_right (by norm_num)]

/-- Claim C3: the drag branch with the primary button held and delta
`(dx, dy)` sets `azimuth := azimuth - dx * 0.005` and
`elevation := clamp(elevation + dy * 0.005, -π/2, π/2)`; for all deltas the
resulting elevation lies in `[-π/2, π/2]`; and a delta `(100, 0)` from
azimuth `0` yields azimuth `-0.5`. -/
theorem c3_pointer_drag_primary :
    (∀ (m : Bool) (delta : Vec2) (o : CameraOrbit),
      (drag_update delta ⟨true, m⟩ o).azimuth = o.azimuth - delta.x * 0.005 ∧
      (drag_update delta ⟨true, m⟩ o).elevation =
        clamp (o.elevation + delta.y * 0.005) (-(Real.pi / 2)) (Real.pi / 2) ∧
      -(Real.pi / 2) ≤ (drag_update delta ⟨true, m⟩ o).elevation ∧
      (drag_update delta ⟨true, m⟩ o).elevation ≤ Real.pi / 2) ∧
    (∀ (m : Bool) (c : Vec3) (d e : ℝ) (p : Vec2),
      (drag_update ⟨100, 0⟩ ⟨true, m⟩ ⟨c, d, 0, e, p⟩).azimuth = -0.5) := by
  constructor
  · intro m delta o
    have hup : clamp (o.elevation + delta.y * 0.005) (-(Real.pi / 2)) (Real.pi / 2) ≤
        Real.pi / 2 :=
      max_le (by linarith [Real.pi_pos]) (min_le_right _ _)
    cases m <;>
      simp [drag_update] <;>
      exact ⟨le_max_left _ _, hup⟩
  · intro m c d e p
    cases m <;> simp [drag_update] <;> norm_num

/-- Claim C4: the drag branch with the middle button held adds
`delta * 0.1` to `pan`; and when both buttons are held the pan update and the
azimuth/elevation update both apply to the same delta. -/
theorem c4_pan_middle :
    (∀ (p : Bool) (delta : Vec2) (o : CameraOrbit),
      (drag_update delta ⟨p, true⟩ o).pan = o.pan.add (delta.scale 0.1)) ∧
    (∀ (delta : Vec2) (o : CameraOrbit),
      drag_update delta ⟨true, true⟩ o =
        { o with
          pan := o.pan.add (delta.scale 0.1),
          azimuth := o.azimuth - delta.x * 0.005,
          elevation := clamp (o.elevation + delta.y * 0.005)
            (-(Real.pi / 2)) (Real.pi / 2) }) := by
  constructor
  · intro p delta o
    cases p <;> simp [drag_update]
  · intro delta o
    simp [drag_update]

/-- Claim C5: `camera_orbit` is invariant under `azimuth -> azimuth + 2π`:
for every state, the derived camera position is identical in exact real
arithmetic. -/
theorem c5_azimuth_periodic (o : CameraOrbit) :
    (camera_orbit { o with azimuth := o.azimuth + 2 * Real.pi }).translation =
      (camera_orbit o).translation := by
  rw [camera_orbit_eq, camera_orbit_eq]
  simp [rotationAboutY, Real.sin_add_two_pi, Real.cos_add_two_pi]

/-- The drag branch never touches the distance field. -/
lemma drag_update_distance (delta : Vec2) (b : ButtonState) (o : CameraOrbit) :
    (drag_update delta b o).distance = o.distance := by
  obtain ⟨bp, bm⟩ := b
  cases bp <;> cases bm <;> simp [drag_update]

/-- Overwriting an accumulator with each list element yields the last
element; starting from `none`, the fold of the cursor-move events equals
`List.getLast?`. -/
lemma lastMove_eq_getLast? (l : List Vec2) : lastMove l = l.getLast? := by
  induction l using List.reverseRecOn with
  | nil => rfl
  | append_singleton xs x ih =>
    simp [lastMove, List.foldl_append, List.getLast?_concat]

/-- Claim C6 is false as stated: on the state with `distance = 1000`
(outside the documented invariant), a zero wheel delta changes the state,
because the code clamps even when the delta is zero. -/
theorem c6_counterexample :
    (camera_input [0] [] ⟨false, false⟩ none ⟨⟨0, 0, 0⟩, 1000, 0, 0, ⟨0, 0⟩⟩).1.distance ≠
      (1000 : ℝ) := by
  simp only [camera_input, lastMove, List.foldl]
  rw [clamp, show (1000 : ℝ) * (1 + 0 * (-0.1)) = 1000 by norm_num,
    min_eq_right (by norm_num : (500 : ℝ) ≤ 1000),
    max_eq_right (by norm_num : (5 : ℝ) ≤ 500)]
  norm_num

/-- Claim C6 (amended): for every state satisfying the documented invariants
(`distance ∈ [5, 500]`, `elevation ∈ [-π/2, π/2]`), a zero wheel delta leaves
the distance unchanged, and a tick whose pointer did not move (current
position equal to the stored last position) leaves the whole orbit state
unchanged, whatever buttons are held. -/
theorem c6_zero_input_noop (o : CameraOrbit) (b : ButtonState) (p : Vec2)
    (hd1 : 5 ≤ o.distance) (hd2 : o.distance ≤ 500)
    (he1 : -(Real.pi / 2) ≤ o.elevation) (he2 : o.elevation ≤ Real.pi / 2) :
    apply_zoom 0 o.distance = o.distance ∧
    (camera_input [] [p] b (some p) o).1 = o := by
  obtain ⟨c, d, a, e, pan⟩ := o
  obtain ⟨px, py⟩ := p
  obtain ⟨bp, bm⟩ := b
  simp only [CameraOrbit.distance] at hd1 hd2
  simp only [CameraOrbit.elevation] at he1 he2
  have hclampd : clamp d 5 500 = d := by
    rw [clamp, min_eq_left hd2, max_eq_right hd1]
  have hclampe : clamp e (-(Real.pi / 2)) (Real.pi / 2) = e := by
    rw [clamp, min_eq_left he2, max_eq_right he1]
  constructor
  · rw [apply_zoom, show d * (1 + 0 * (-0.1)) = d by ring, hclampd]
  · simp only [camera_input, lastMove, List.foldl]
    rw [show Vec2.sub ⟨px, py⟩ ⟨px, py⟩ = ⟨0, 0⟩ by simp [Vec2.sub]]
    cases bp <;> cases bm <;>
      simp [drag_update, Vec2.add, Vec2.scale, hclampe]

/-- Witness for the amended claim C6 at a concrete state. -/
theorem c6_witness :
    apply_zoom 0 (200 : ℝ) = 200 ∧
    (camera_input [] [⟨3, 4⟩] ⟨true, true⟩ (some ⟨3, 4⟩)
        ⟨⟨0, 0, 0⟩, 200, 0, 0, ⟨0, 0⟩⟩).1 = ⟨⟨0, 0, 0⟩, 200, 0, 0, ⟨0, 0⟩⟩ :=
  c6_zero_input_noop ⟨⟨0, 0, 0⟩, 200, 0, 0, ⟨0, 0⟩⟩ ⟨true, true⟩ ⟨3, 4⟩
    (by norm_num) (by norm_num) (by linarith [Real.pi_pos]) (by linarith [Real.pi_pos])

/-- Claim C7 is false as stated: with starting distance `200` and two wheel
events of delta `1` in one tick, the code's per-event fold gives
`200 * 0.9 * 0.9 = 162`, while applying the zoom update once with the summed
delta would give `200 * 0.8 = 160`. -/
theorem c7_counterexample :
    (camera_input [1, 1] [] ⟨false, false⟩ none
        ⟨⟨0, 0, 0⟩, 200, 0, 0, ⟨0, 0⟩⟩).1.distance ≠ sumZoomTick [1, 1] 200 := by
  simp only [camera_input, lastMove, sumZoomTick, List.foldl, List.sum_cons,
    List.sum_nil]
  rw [show (200 : ℝ) * (1 + 1 * (-0.1)) = 180 by norm_num,
    show clamp (180 : ℝ) 5 500 = 180 by
      rw [clamp, min_eq_left (by norm_num), max_eq_right (by norm_num)],
    show (180 : ℝ) * (1 + 1 * (-0.1)) = 162 by norm_num,
    show clamp (162 : ℝ) 5 500 = 162 by
      rw [clamp, min_eq_left (by norm_num), max_eq_right (by norm_num)],
    show (200 : ℝ) * (1 + (1 + (1 + 0)) * (-0.1)) = 160 by norm_num,
    show clamp (160 : ℝ) 5 500 = 160 by
      rw [clamp, min_eq_left (by norm_num), max_eq_right (by norm_num)]]
  norm_num

/-- Claim C7 (amended): per tick, wheel events are folded by applying the
zoom update once per event in arrival order (multiplicatively, with a clamp
after each event — not by applying the summed delta once), and the pointer
fold selects the last pointer-move event of the tick as the current
position, discarding intermediate positions. -/
theorem c7_tick_folding (wheel : List ℝ) (moves : List Vec2) (b : ButtonState)
    (last : Option Vec2) (o : CameraOrbit) :
    (camera_input wheel moves b last o).2 = moves.getLast? ∧
    (camera_input wheel moves b last o).1.distance =
      wheel.foldl (fun dist y => apply_zoom y dist) o.distance := by
  constructor
  · simp only [camera_input]
    exact lastMove_eq_getLast? moves
  · simp only [camera_input]
    cases last with
    | none =>
      cases h : lastMove moves <;> simp [apply_zoom]
    | some p =>
      cases h : lastMove moves with
      | none => simp [apply_zoom]
      | some q => simp [drag_update_distance, apply_zoom]

/-- Claim C8: with no stored prior pointer position a tick applies no
rotation and no pan whatever the buttons and events are; the stored last
position is set to the tick's current position (the fold of the tick's move
events) unconditionally; and a tick with no move event resets it to `none`,
so one further move event is needed before drag deltas take effect again. -/
theorem c8_last_cursor_bookkeeping (wheel : List ℝ) (moves : List Vec2)
    (b : ButtonState) (last : Option Vec2) (o : CameraOrbit) :
    ((camera_input wheel moves b none o).1.azimuth = o.azimuth ∧
     (camera_input wheel moves b none o).1.elevation = o.elevation ∧
     (camera_input wheel moves b none o).1.pan = o.pan ∧
     (camera_input wheel moves b none o).1.center = o.center) ∧
    (camera_input wheel moves b last o).2 = lastMove moves ∧
    (camera_input wheel [] b last o).2 = none := by
  refine ⟨?_, rfl, rfl⟩
  cases h : lastMove moves <;> simp [camera_input, h]

/-- Claim C9: a tick whose only input is wheel events (no pointer-move
events, no buttons held) leaves center, azimuth, elevation and pan
unchanged; only the distance field can change. -/
theorem c9_wheel_only_frame (wheel : List ℝ) (last : Option Vec2)
    (o : CameraOrbit) :
    (camera_input wheel [] ⟨false, false⟩ last o).1.center = o.center ∧
    (camera_input wheel [] ⟨false, false⟩ last o).1.azimuth = o.azimuth ∧
    (camera_input wheel [] ⟨false, false⟩ last o).1.elevation = o.elevation ∧
    (camera_input wheel [] ⟨false, false⟩ last o).1.pan = o.pan := by
  cases last <;> simp [camera_input, lastMove]

/-- Claim C10: the elevation clamp admits its endpoints exactly — a primary
drag of delta `(0, ±1000)` from elevation `0` lands on elevation exactly
`±π/2` — and at elevation `±π/2` with zero pan the derived position is
`center + (0, ∓distance, 0)`, so the look-at direction `center - position`
is exactly the world-up vector scaled by `±distance`. -/
theorem c10_elevation_endpoint_degenerate :
    (∀ (m : Bool) (c : Vec3) (d a : ℝ) (pan : Vec2),
      (drag_update ⟨0, 1000⟩ ⟨true, m⟩ ⟨c, d, a, 0, pan⟩).elevation = Real.pi / 2 ∧
      (drag_update ⟨0, -1000⟩ ⟨true, m⟩ ⟨c, d, a, 0, pan⟩).elevation = -(Real.pi / 2)) ∧
    (∀ (c : Vec3) (d a : ℝ),
      (camera_orbit ⟨c, d, a, Real.pi / 2, ⟨0, 0⟩⟩).translation = c.add ⟨0, -d, 0⟩ ∧
      (camera_orbit ⟨c, d, a, -(Real.pi / 2), ⟨0, 0⟩⟩).translation = c.add ⟨0, d, 0⟩ ∧
      (camera_orbit ⟨c, d, a, Real.pi / 2, ⟨0, 0⟩⟩).target.sub
          (camera_orbit ⟨c, d, a, Real.pi / 2, ⟨0, 0⟩⟩).translation =
        Vec3.scale ⟨0, 1, 0⟩ d) := by
  have hhalf_le : Real.pi / 2 ≤ 5 := by linarith [Real.pi_le_four]
  have hhalf_pos : (0 : ℝ) < Real.pi / 2 := by linarith [Real.pi_pos]
  constructor
  · intro m c d a pan
    have hhi : clamp (1000 * 0.005) (-(Real.pi / 2)) (Real.pi / 2) = Real.pi / 2 := by
      rw [clamp, show (1000 : ℝ) * 0.005 = 5 by norm_num,
        min_eq_right hhalf_le, max_eq_right (by linarith)]
    have hlo : clamp (-(1000 * 0.005)) (-(Real.pi / 2)) (Real.pi / 2) = -(Real.pi / 2) := by
      rw [clamp, show -((1000 : ℝ) * 0.005) = -5 by norm_num,
        min_eq_left (by linarith), max_eq_left (by linarith)]
    cases m <;> simp [drag_update] <;> exact ⟨hhi, hlo⟩
  · intro c d a
    refine ⟨?_, ?_, ?_⟩ <;>
      rw [camera_orbit_eq] <;>
      simp [rotationAboutX, rotationAboutY, Vec3.add, Vec3.sub, Vec3.scale,
        Real.cos_pi_div_two, Real.sin_pi_div_two] <;>
      ring

end Rsodr
